import Mathlib

/-!
Verification of the orchestration core of the Multi-Agent-Tourism backend.

Each definition below is a shallow embedding of a Python function of the
repository (file and symbol named in its doc comment).  Async functions are
modelled as pure functions over explicit oracles: a remote call becomes a
function argument giving the outcome of each invocation, exceptions become
`Except`, Python `None` becomes `Option.none`, and the wall clock becomes an
explicit rational `now` argument.
-/

set_option autoImplicit false

universe u v

/-! ## Retry policy — `backend/app/utils/retry.py`, `async_retry` -/

/-- Observable trace of one run of the wrapper produced by `async_retry`:
how many times the wrapped operation was invoked, the sleep durations
performed between attempts (in order), and the final outcome.
`outcome = none` models the wrapper falling off the `while` loop and
returning Python `None` (possible only when `retries = 0`). -/
structure RetryRun (E A : Type u) where
  calls : Nat
  sleeps : List ℚ
  outcome : Option (Except E A)

/-- Loop body of `async_retry.wrapper`.  The Python loop runs
`while attempt < retries` with `attempt` incremented after each failure;
here `remaining` is the fuel `retries - attempt`, and `attempt` is the
absolute 0-indexed attempt counter (used to index the operation oracle and
to compute the sleep `backoff_factor * 2 ** (attempt' - 1)` where
`attempt' = attempt + 1` is the post-increment value).  `op n` is the
outcome of the `n`-th invocation of the wrapped function. -/
def asyncRetryGo {E A : Type u} (op : Nat → Except E A) (backoff : ℚ) :
    Nat → Nat → RetryRun E A
  | 0, _ => ⟨0, [], none⟩
  | remaining + 1, attempt =>
    match op attempt with
    | .ok a => ⟨1, [], some (.ok a)⟩
    | .error e =>
      if remaining = 0 then
        -- `attempt + 1 >= retries`: re-raise without sleeping
        ⟨1, [], some (.error e)⟩
      else
        let r := asyncRetryGo op backoff remaining (attempt + 1)
        ⟨r.calls + 1, (backoff * 2 ^ attempt) :: r.sleeps, r.outcome⟩

/-- `async_retry(retries, backoff_factor)` applied to an operation, run once:
the loop starts at `attempt = 0`. -/
def asyncRetryRun {E A : Type u} (retries : Nat) (backoff : ℚ)
    (op : Nat → Except E A) : RetryRun E A :=
  asyncRetryGo op backoff retries 0

/-- On an always-failing operation, starting at `attempt` with
`retries = attempt + k + 1`, the loop performs `k + 1` calls, sleeps
`backoff * 2 ^ (attempt + n)` for `n < k`, and ends with the error of the
last attempt. -/
theorem asyncRetryGo_allFail {E A : Type u} (op : Nat → Except E A)
    (errs : Nat → E) (backoff : ℚ) (h : ∀ n, op n = .error (errs n)) :
    ∀ k attempt, asyncRetryGo op backoff (k + 1) attempt =
      ⟨k + 1, (List.range k).map (fun n => backoff * 2 ^ (attempt + n)),
        some (.error (errs (attempt + k)))⟩ := by
  intro k
  induction k with
  | zero =>
    intro attempt
    simp [asyncRetryGo, h attempt]
  | succ k ih =>
    intro attempt
    have hk : k + 1 ≠ 0 := Nat.succ_ne_zero k
    have step : asyncRetryGo op backoff (k + 1 + 1) attempt =
        ⟨(asyncRetryGo op backoff (k + 1) (attempt + 1)).calls + 1,
          (backoff * 2 ^ attempt) ::
            (asyncRetryGo op backoff (k + 1) (attempt + 1)).sleeps,
          (asyncRetryGo op backoff (k + 1) (attempt + 1)).outcome⟩ := by
      simp [asyncRetryGo, h attempt, hk]
    rw [step, ih (attempt + 1)]
    simp only [RetryRun.mk.injEq]
    refine ⟨trivial, ?_, ?_⟩
    · rw [List.range_succ_eq_map, List.map_cons, List.map_map]
      refine congrArg₂ List.cons ?_ (List.map_congr_left ?_)
      · rw [Nat.add_zero]
      · intro n _
        have : attempt + 1 + n = attempt + Nat.succ n := by omega
        simp [Function.comp, this]
    · have : attempt + 1 + k = attempt + (k + 1) := by omega
      rw [this]

/-- C3: on an operation failing on every invocation and `retries ≥ 1`, the
wrapper invokes the operation exactly `retries` times, sleeps
`backoff * 2 ^ (n - 1)` after the `n`-th failed attempt (1-indexed) for
each `n < retries` and never after the final attempt, and fails with the
error observed on the last attempt. -/
theorem retry_schedule_on_persistent_failure {E A : Type u}
    (op : Nat → Except E A) (errs : Nat → E) (backoff : ℚ) (retries : Nat)
    (hr : 1 ≤ retries) (h : ∀ n, op n = .error (errs n)) :
    (asyncRetryRun retries backoff op).calls = retries ∧
    (asyncRetryRun retries backoff op).sleeps =
      (List.range (retries - 1)).map (fun n => backoff * 2 ^ n) ∧
    (asyncRetryRun retries backoff op).outcome =
      some (.error (errs (retries - 1))) := by
  obtain ⟨k, rfl⟩ : ∃ k, retries = k + 1 :=
    ⟨retries - 1, (Nat.succ_pred_eq_of_pos hr).symm⟩
  rw [asyncRetryRun, asyncRetryGo_allFail op errs backoff h k 0]
  refine ⟨rfl, ?_, by simp⟩
  simp

/-- Witness for C3: three always-failing attempts with backoff 1/2 give
exactly 3 calls, sleeps [1/2, 1], and the last error. -/
theorem retry_schedule_on_persistent_failure_witness :
    (asyncRetryRun 3 (1/2) (fun n => (.error n : Except Nat Unit))).calls = 3 ∧
    (asyncRetryRun 3 (1/2) (fun n => (.error n : Except Nat Unit))).sleeps =
      [1/2, 1] ∧
    (asyncRetryRun 3 (1/2) (fun n => (.error n : Except Nat Unit))).outcome =
      some (.error 2) := by
  have h := retry_schedule_on_persistent_failure
    (fun n => (.error n : Except Nat Unit)) (fun n => n) (1/2) 3
    (by decide) (fun n => rfl)
  refine ⟨h.1, ?_, h.2.2⟩
  rw [h.2.1]
  norm_num [List.range_succ]

/-- C10: a wrapper built with `retries = 0` never enters the attempt loop:
the operation is never invoked, no sleep happens, and the wrapper returns
Python `None` (neither a value nor an error). -/
theorem retry_zero_attempts_returns_none {E A : Type u} (backoff : ℚ)
    (op : Nat → Except E A) :
    asyncRetryRun 0 backoff op = ⟨0, [], none⟩ := rfl

/-! ## Association-list model of a Python `dict` -/

/-- First-match lookup, modelling Python `d.get(k)` on a dict represented as
its insertion-ordered key/value pairs. -/
def alookup {κ : Type u} {α : Type v} [DecidableEq κ] (k : κ) :
    List (κ × α) → Option α
  | [] => none
  | e :: rest => if e.1 = k then some e.2 else alookup k rest

/-- Python `d[k] = v` on an insertion-ordered dict: if the key is present its
value is replaced in place, otherwise the pair is appended at the end.
(Python dicts have unique keys, so replacing the first match is exact.) -/
def dict_insert {κ : Type u} {α : Type v} [DecidableEq κ] :
    List (κ × α) → κ → α → List (κ × α)
  | [], k, v => [(k, v)]
  | e :: rest, k, v =>
    if e.1 = k then (k, v) :: rest else e :: dict_insert rest k v

theorem alookup_dict_insert_self {κ : Type u} {α : Type v} [DecidableEq κ]
    (m : List (κ × α)) (k : κ) (v : α) :
    alookup k (dict_insert m k v) = some v := by
  induction m with
  | nil => simp [dict_insert, alookup]
  | cons e rest ih =>
    by_cases h : e.1 = k
    · simp [dict_insert, h, alookup]
    · simp [dict_insert, h, alookup, ih]

theorem alookup_dict_insert_ne {κ : Type u} {α : Type v} [DecidableEq κ]
    (m : List (κ × α)) (k k' : κ) (v : α) (hne : k' ≠ k) :
    alookup k' (dict_insert m k v) = alookup k' m := by
  induction m with
  | nil => simp [dict_insert, alookup, Ne.symm hne]
  | cons e rest ih =>
    by_cases h : e.1 = k
    · simp [dict_insert, h, alookup, Ne.symm hne]
    · simp [dict_insert, h, alookup, ih]

/-! ## TTL cache — `backend/app/utils/cache.py`, `ttl_cache` -/

/-- Observable outcome of one pass through `ttl_cache`'s wrapper for a given
key: the returned value, the store afterwards, and whether the wrapped
computation (`func`) was invoked. -/
structure CacheCall (κ : Type u) (V : Type v) where
  value : V
  store : List (κ × ℚ × V)
  invoked : Bool

/-- One call through the wrapper produced by `ttl_cache(ttl_seconds)`:
`key` is `_make_key(func, args, kwargs)`, `now` is `time.time()`,
`compute` is the value `func(*args, **kwargs)` would produce, and `store`
is `_store` (expiry first in each entry, as in the source, which stores
`(now + ttl_seconds, result)`). -/
def ttl_cache_lookup {κ : Type u} {V : Type v} [DecidableEq κ]
    (ttl_seconds : ℚ) (key : κ) (now : ℚ) (compute : V)
    (store : List (κ × ℚ × V)) : CacheCall κ V :=
  match alookup key store with
  | some entry =>
    if entry.1 > now then ⟨entry.2, store, false⟩
    else ⟨compute, dict_insert store key (now + ttl_seconds, compute), true⟩
  | none => ⟨compute, dict_insert store key (now + ttl_seconds, compute), true⟩

/-- C4: a lookup with a stored entry satisfying `now < expiresAt` returns the
stored value without invoking the computation and leaves the store alone;
otherwise (stale or absent) it invokes the computation, stores
`(now + ttl, value)` under the key, and returns that value.  Consequently a
second lookup within the TTL window returns the originally computed value
without re-invoking, while a lookup at or after `now + ttl` recomputes. -/
theorem ttl_cache_hit_semantics {κ : Type u} {V : Type v} [DecidableEq κ]
    (ttl : ℚ) (key : κ) (now : ℚ) (compute : V) (store : List (κ × ℚ × V)) :
    (∀ exp v, alookup key store = some (exp, v) → now < exp →
      ttl_cache_lookup ttl key now compute store = ⟨v, store, false⟩) ∧
    (∀ exp v, alookup key store = some (exp, v) → exp ≤ now →
      ttl_cache_lookup ttl key now compute store =
        ⟨compute, dict_insert store key (now + ttl, compute), true⟩) ∧
    (alookup key store = none →
      ttl_cache_lookup ttl key now compute store =
        ⟨compute, dict_insert store key (now + ttl, compute), true⟩) ∧
    (∀ now' compute', now' < now + ttl →
      ttl_cache_lookup ttl key now' compute'
          (dict_insert store key (now + ttl, compute)) =
        ⟨compute, dict_insert store key (now + ttl, compute), false⟩) ∧
    (∀ now' compute', now + ttl ≤ now' →
      (ttl_cache_lookup ttl key now' compute'
          (dict_insert store key (now + ttl, compute))).value = compute' ∧
      (ttl_cache_lookup ttl key now' compute'
          (dict_insert store key (now + ttl, compute))).invoked = true) := by
  refine ⟨?_, ?_, ?_, ?_, ?_⟩
  · intro exp v hl hlt
    simp [ttl_cache_lookup, hl, hlt]
  · intro exp v hl hle
    simp [ttl_cache_lookup, hl, not_lt.mpr hle]
  · intro hl
    simp [ttl_cache_lookup, hl]
  · intro now' compute' hlt
    simp [ttl_cache_lookup, alookup_dict_insert_self, hlt]
  · intro now' compute' hle
    simp [ttl_cache_lookup, alookup_dict_insert_self, not_lt.mpr hle]

/-- Witness for C4: with an entry for `"k"` expiring at time 10, a lookup at
time 5 returns the stored value 1 without invoking, and a stale lookup at
time 10 recomputes. -/
theorem ttl_cache_hit_semantics_witness :
    ttl_cache_lookup (κ := String) (V := Int) 600 "k" 5 7 [("k", 10, 1)] =
      ⟨1, [("k", 10, 1)], false⟩ ∧
    ttl_cache_lookup (κ := String) (V := Int) 600 "k" 10 7 [("k", 10, 1)] =
      ⟨7, [("k", 610, 7)], true⟩ := by
  constructor
  · exact (ttl_cache_hit_semantics (κ := String) (V := Int)
      600 "k" 5 7 [("k", 10, 1)]).1 10 1 (by simp [alookup]) (by norm_num)
  · have h := (ttl_cache_hit_semantics (κ := String) (V := Int)
      600 "k" 10 7 [("k", 10, 1)]).2.1 10 1 (by simp [alookup]) (by norm_num)
    simpa [dict_insert, show (10 : ℚ) + 600 = 610 by norm_num] using h

/-! ## Weather service — `backend/app/services/open_meteo.py` -/

/-- `WEATHER_CODE_MAP`: the fixed table mapping Open-Meteo weather codes to
human-readable labels; `none` models a code absent from the Python dict. -/
def WEATHER_CODE_MAP (c : Int) : Option String :=
  if c = 0 then some "Clear"
  else if c = 1 then some "Mainly Clear"
  else if c = 2 then some "Partly Cloudy"
  else if c = 3 then some "Overcast"
  else if c = 45 then some "Fog"
  else if c = 48 then some "Depositing Rime Fog"
  else if c = 51 then some "Light Drizzle"
  else if c = 53 then some "Moderate Drizzle"
  else if c = 55 then some "Dense Drizzle"
  else if c = 56 then some "Light Freezing Drizzle"
  else if c = 57 then some "Dense Freezing Drizzle"
  else if c = 61 then some "Slight Rain"
  else if c = 63 then some "Moderate Rain"
  else if c = 65 then some "Heavy Rain"
  else if c = 66 then some "Light Freezing Rain"
  else if c = 67 then some "Heavy Freezing Rain"
  else if c = 71 then some "Slight Snowfall"
  else if c = 73 then some "Moderate Snowfall"
  else if c = 75 then some "Heavy Snowfall"
  else if c = 77 then some "Snow Grains"
  else if c = 80 then some "Slight Rain Showers"
  else if c = 81 then some "Moderate Rain Showers"
  else if c = 82 then some "Violent Rain Showers"
  else if c = 85 then some "Slight Snow Showers"
  else if c = 86 then some "Heavy Snow Showers"
  else if c = 95 then some "Thunderstorm"
  else if c = 96 then some "Thunderstorm With Slight Hail"
  else if c = 99 then some "Thunderstorm With Heavy Hail"
  else none

/-- `_weather_summary`: `WEATHER_CODE_MAP.get(code)` on the current-conditions
weather code; the argument is `none` when `current_weather.weathercode` is
missing or unparsable (the `except` branch returning `None`). -/
def weather_summary : Option Int → Option String
  | some c => WEATHER_CODE_MAP c
  | none => none

/-- Python `list.index(x)`: index of the first element equal to `x`, `none`
when absent (`ValueError`). -/
def indexOfFirst (s : String) : List String → Option Nat
  | [] => none
  | t :: rest => if t = s then some 0 else (indexOfFirst s rest).map (· + 1)

theorem indexOfFirst_eq_some {s : String} :
    ∀ (l : List String) (i : Nat), l[i]? = some s →
      (∀ j, j < i → l[j]? ≠ some s) → indexOfFirst s l = some i := by
  intro l
  induction l with
  | nil => intro i h _; simp at h
  | cons t rest ih =>
    intro i h hmin
    cases i with
    | zero =>
      simp at h
      simp [indexOfFirst, h]
    | succ i =>
      have ht : t ≠ s := by
        intro he
        exact hmin 0 (Nat.succ_pos i) (by simp [he])
      have hr : rest[i]? = some s := by simpa using h
      have hrmin : ∀ j, j < i → rest[j]? ≠ some s := by
        intro j hj hc
        exact hmin (j + 1) (Nat.succ_lt_succ hj) (by simpa using hc)
      simp [indexOfFirst, ht, ih i hr hrmin]

theorem indexOfFirst_eq_none {s : String} :
    ∀ l : List String, s ∉ l → indexOfFirst s l = none := by
  intro l
  induction l with
  | nil => intro _; rfl
  | cons t rest ih =>
    intro h
    have ht : t ≠ s := fun he => h (he ▸ List.mem_cons_self t rest)
    have hr : s ∉ rest := fun hm => h (List.mem_cons_of_mem t hm)
    simp [indexOfFirst, ht, ih hr]

/-- `_extract_precip_probability`: find the index in `hourly.time` exactly
equal to `current_weather.time`; return the integer at that index of
`hourly.precipitation_probability`, or `none` when there is no match, the
index is out of range of the probability array, or the value is null. -/
def extract_precip_probability (currentTime : String) (times : List String)
    (probs : List (Option Int)) : Option Int :=
  match indexOfFirst currentTime times with
  | none => none
  | some idx =>
    match probs[idx]? with
    | none => none
    | some none => none
    | some (some v) => some v

/-- C5: the derived precipitation probability is the integer at the first
hourly index whose timestamp string exactly equals the current-conditions
timestamp; when no hourly timestamp equals it (even with a non-empty hourly
array), or the matched value is null or beyond the probability array, the
result is absent (`none`), not an error. -/
theorem weather_time_alignment (ct : String) (times : List String)
    (probs : List (Option Int)) :
    (∀ i, times[i]? = some ct → (∀ j, j < i → times[j]? ≠ some ct) →
      ((∀ v : Int, probs[i]? = some (some v) →
          extract_precip_probability ct times probs = some v) ∧
        (probs.length ≤ i → extract_precip_probability ct times probs = none) ∧
        (probs[i]? = some none →
          extract_precip_probability ct times probs = none))) ∧
    (ct ∉ times → extract_precip_probability ct times probs = none) := by
  constructor
  · intro i hi hmin
    have hidx := indexOfFirst_eq_some times i hi hmin
    refine ⟨?_, ?_, ?_⟩
    · intro v hv
      simp [extract_precip_probability, hidx, hv]
    · intro hlen
      simp [extract_precip_probability, hidx, List.getElem?_eq_none hlen]
    · intro hv
      simp [extract_precip_probability, hidx, hv]
  · intro hmem
    simp [extract_precip_probability, indexOfFirst_eq_none times hmem]

/-- Witness for C5 (the scenario from the spec): current time
`2025-05-01T10:00` against hourly `[..09:00, ..10:00, ..11:00]` with
probabilities `[10, 35, 5]` resolves to 35. -/
theorem weather_time_alignment_witness :
    extract_precip_probability "2025-05-01T10:00"
      ["2025-05-01T09:00", "2025-05-01T10:00", "2025-05-01T11:00"]
      [some 10, some 35, some 5] = some 35 := by
  exact ((weather_time_alignment "2025-05-01T10:00"
      ["2025-05-01T09:00", "2025-05-01T10:00", "2025-05-01T11:00"]
      [some 10, some 35, some 5]).1 1 (by decide)
      (by intro j hj; interval_cases j; decide)).1 35 (by decide)

/-- One entry of the 7-day forecast built in `fetch_open_meteo`.  Field
values are `Option` because the provider arrays may be short or carry
nulls. -/
structure DailyForecast where
  date : String
  temp_max : Option ℚ
  temp_min : Option ℚ
  precipitation_probability : Option Int
  summary : Option String
  deriving DecidableEq

/-- Forecast extraction loop of `fetch_open_meteo`: the first
`min(7, len(daily.time))` entries taken positionally; each optional field
uses the value at index `i` when the corresponding array is long enough and
`None` otherwise, and the summary is
`WEATHER_CODE_MAP.get(code, "Unknown")` when the code is present and
non-null, else `None`.  List entries are `Option` (null JSON values). -/
def extract_forecast (times : List String) (max_temps min_temps : List (Option ℚ))
    (precip_probs : List (Option Int)) (weather_codes : List (Option Int)) :
    List DailyForecast :=
  (List.range (min 7 times.length)).map fun i =>
    { date := times.getD i ""
      temp_max := max_temps.getD i none
      temp_min := min_temps.getD i none
      precipitation_probability := precip_probs.getD i none
      summary :=
        match weather_codes.getD i none with
        | some c => some ((WEATHER_CODE_MAP c).getD "Unknown")
        | none => none }

/-- Counterexample for C8: weather code 4 is not in the label table, yet the
forecast entry's summary is the literal `"Unknown"`, not absent — unlike the
current-conditions summary, which maps the same unknown code to absent. -/
theorem forecast_unknown_code_not_absent :
    (extract_forecast ["2025-05-01"] [] [] [] [some 4]).map
        (fun f => f.summary) = [some "Unknown"] ∧
    weather_summary (some 4) = none := by
  constructor
  · rfl
  · rfl

/-- C8 (amended): the forecast consists of the first
`min(7, len(daily.time))` entries positionally; a field array shorter than
the time array degrades that field to absent at the missing positions
rather than failing; each entry's weather code goes through the fixed
label table, with codes missing from the table rendered as the literal
summary `"Unknown"` (the summary is absent only when the code array is too
short at that position or the value is null — unlike the
current-conditions summary, where an unknown code yields absent). -/
theorem forecast_extraction_tolerance (times : List String)
    (maxT minT : List (Option ℚ)) (pp codes : List (Option Int))
    (out : List DailyForecast)
    (hout : out = extract_forecast times maxT minT pp codes) :
    out.length = min 7 times.length ∧
    (∀ i d, i < 7 → times[i]? = some d → out[i]?.map (fun f => f.date) = some d) ∧
    (∀ i, i < out.length → maxT.length ≤ i →
      out[i]?.map (fun f => f.temp_max) = some none) ∧
    (∀ i v, i < out.length → maxT[i]? = some v →
      out[i]?.map (fun f => f.temp_max) = some v) ∧
    (∀ i, i < out.length → minT.length ≤ i →
      out[i]?.map (fun f => f.temp_min) = some none) ∧
    (∀ i v, i < out.length → minT[i]? = some v →
      out[i]?.map (fun f => f.temp_min) = some v) ∧
    (∀ i, i < out.length → pp.length ≤ i →
      out[i]?.map (fun f => f.precipitation_probability) = some none) ∧
    (∀ i v, i < out.length → pp[i]? = some v →
      out[i]?.map (fun f => f.precipitation_probability) = some v) ∧
    (∀ i c, i < out.length → codes[i]? = some (some c) →
      out[i]?.map (fun f => f.summary) =
        some (some ((WEATHER_CODE_MAP c).getD "Unknown"))) ∧
    (∀ i, i < out.length → (codes.length ≤ i ∨ codes[i]? = some none) →
      out[i]?.map (fun f => f.summary) = some none) := by
  subst hout
  have hlen : (extract_forecast times maxT minT pp codes).length =
      min 7 times.length := by
    simp [extract_forecast]
  have hget : ∀ i, i < min 7 times.length →
      (extract_forecast times maxT minT pp codes)[i]? =
        some { date := times.getD i ""
               temp_max := maxT.getD i none
               temp_min := minT.getD i none
               precipitation_probability := pp.getD i none
               summary :=
                 match codes.getD i none with
                 | some c => some ((WEATHER_CODE_MAP c).getD "Unknown")
                 | none => none } := by
    intro i hi
    simp [extract_forecast, List.getElem?_map, List.getElem?_range, hi]
  refine ⟨hlen, ?_, ?_, ?_, ?_, ?_, ?_, ?_, ?_, ?_⟩
  · intro i d h7 hd
    have hit : i < times.length := by
      have := List.getElem?_eq_some.mp hd
      exact this.1
    have hi : i < min 7 times.length := by omega
    rw [hget i hi]
    simp [List.getD, hd]
  · intro i hi hshort
    rw [hlen] at hi
    rw [hget i hi]
    simp [List.getD, List.getElem?_eq_none hshort]
  · intro i v hi hv
    rw [hlen] at hi
    rw [hget i hi]
    simp [List.getD, hv]
  · intro i hi hshort
    rw [hlen] at hi
    rw [hget i hi]
    simp [List.getD, List.getElem?_eq_none hshort]
  · intro i v hi hv
    rw [hlen] at hi
    rw [hget i hi]
    simp [List.getD, hv]
  · intro i hi hshort
    rw [hlen] at hi
    rw [hget i hi]
    simp [List.getD, List.getElem?_eq_none hshort]
  · intro i v hi hv
    rw [hlen] at hi
    rw [hget i hi]
    simp [List.getD, hv]
  · intro i c hi hc
    rw [hlen] at hi
    rw [hget i hi]
    simp [List.getD, hc]
  · intro i hi hc
    rw [hlen] at hi
    rw [hget i hi]
    rcases hc with hshort | hnull
    · simp [List.getD, List.getElem?_eq_none hshort]
    · simp [List.getD, hnull]

/-- Witness for C8 (amended): two daily times with one max temperature and
codes `[0, 4]`: entry 0 has `temp_max = 20` and summary `Clear`; entry 1 has
an absent `temp_max` (short array) and summary `"Unknown"` (code 4 not in
the table). -/
theorem forecast_extraction_tolerance_witness :
    (extract_forecast ["d1", "d2"] [some 20] [] [] [some 0, some 4])[1]?.map
        (fun f => f.temp_max) = some none ∧
    (extract_forecast ["d1", "d2"] [some 20] [] [] [some 0, some 4])[1]?.map
        (fun f => f.summary) = some (some "Unknown") ∧
    (extract_forecast ["d1", "d2"] [some 20] [] [] [some 0, some 4])[0]?.map
        (fun f => f.summary) = some (some "Clear") := by
  have h := forecast_extraction_tolerance ["d1", "d2"] [some 20] [] []
    [some 0, some 4] _ rfl
  refine ⟨h.2.2.1 1 (by decide) (by decide), ?_, ?_⟩
  · have := h.2.2.2.2.2.2.2.2.1 1 4 (by decide) (by decide)
    simpa using this
  · have := h.2.2.2.2.2.2.2.2.1 0 0 (by decide) (by decide)
    simpa using this

/-! ## Geocoding — `backend/app/services/geocode.py` -/

/-- `GeocodeResult` dataclass. -/
structure GeocodeResult where
  display_name : String
  lat : ℚ
  lon : ℚ
  source : String
  deriving DecidableEq

/-- One raw match of the provider response consumed by `_perform_request`:
`display_name = none` models a missing/null name, and `lat`/`lon` are the
parsed float values (`none` when the field is missing or `float(...)`
raises). -/
structure RawGeoItem where
  display_name : Option String
  lat : Option ℚ
  lon : Option ℚ
  deriving DecidableEq

/-- Parsing loop of `_perform_request`: skip items with a falsy name or an
already-seen name, mark the name seen, skip items whose coordinates do not
parse, and stop as soon as 3 results are accumulated.  `seen` is
`seen_names` and `count` is `len(results)` so far; the function returns the
results appended after that point. -/
def parse_geo_items : List RawGeoItem → List String → Nat → List GeocodeResult
  | [], _, _ => []
  | it :: rest, seen, count =>
    match it.display_name with
    | none => parse_geo_items rest seen count
    | some n =>
      if n = "" ∨ n ∈ seen then parse_geo_items rest seen count
      else
        match it.lat, it.lon with
        | some la, some lo =>
          if 3 ≤ count + 1 then [⟨n, la, lo, "nominatim"⟩]
          else ⟨n, la, lo, "nominatim"⟩ ::
            parse_geo_items rest (n :: seen) (count + 1)
        | _, _ => parse_geo_items rest (n :: seen) count

theorem parse_geo_items_length :
    ∀ (items : List RawGeoItem) (seen : List String) (count : Nat),
      count ≤ 2 → (parse_geo_items items seen count).length ≤ 3 - count := by
  intro items
  induction items with
  | nil => intro seen count _; simp [parse_geo_items]
  | cons it rest ih =>
    intro seen count hc
    cases hdn : it.display_name with
    | none => simpa [parse_geo_items, hdn] using ih seen count hc
    | some n =>
      by_cases hskip : n = "" ∨ n ∈ seen
      · simpa [parse_geo_items, hdn, hskip] using ih seen count hc
      · cases hla : it.lat with
        | none =>
          simpa [parse_geo_items, hdn, hskip, hla] using ih (n :: seen) count hc
        | some la =>
          cases hlo : it.lon with
          | none =>
            simpa [parse_geo_items, hdn, hskip, hla, hlo] using
              ih (n :: seen) count hc
          | some lo =>
            by_cases hbreak : 3 ≤ count + 1
            · simp [parse_geo_items, hdn, hskip, hla, hlo, hbreak]
              omega
            · have htail := ih (n :: seen) (count + 1) (by omega)
              simp [parse_geo_items, hdn, hskip, hla, hlo, hbreak]
              omega

theorem parse_geo_items_nodup :
    ∀ (items : List RawGeoItem) (seen : List String) (count : Nat),
      ((parse_geo_items items seen count).map
        (fun r => r.display_name)).Nodup ∧
      ∀ r ∈ parse_geo_items items seen count, r.display_name ∉ seen := by
  intro items
  induction items with
  | nil => intro seen count; simp [parse_geo_items]
  | cons it rest ih =>
    intro seen count
    cases hdn : it.display_name with
    | none => simpa [parse_geo_items, hdn] using ih seen count
    | some n =>
      by_cases hskip : n = "" ∨ n ∈ seen
      · simpa [parse_geo_items, hdn, hskip] using ih seen count
      · push_neg at hskip
        cases hla : it.lat with
        | none =>
          have h := ih (n :: seen) count
          refine ⟨by simpa [parse_geo_items, hdn, hskip, hla] using h.1, ?_⟩
          intro r hr
          have hr' : r ∈ parse_geo_items rest (n :: seen) count := by
            simpa [parse_geo_items, hdn, hskip, hla] using hr
          exact fun hmem => h.2 r hr' (List.mem_cons_of_mem n hmem)
        | some la =>
          cases hlo : it.lon with
          | none =>
            have h := ih (n :: seen) count
            refine ⟨by simpa [parse_geo_items, hdn, hskip, hla, hlo] using h.1, ?_⟩
            intro r hr
            have hr' : r ∈ parse_geo_items rest (n :: seen) count := by
              simpa [parse_geo_items, hdn, hskip, hla, hlo] using hr
            exact fun hmem => h.2 r hr' (List.mem_cons_of_mem n hmem)
          | some lo =>
            by_cases hbreak : 3 ≤ count + 1
            · refine ⟨by simp [parse_geo_items, hdn, hskip, hla, hlo, hbreak], ?_⟩
              intro r hr
              have : r = ⟨n, la, lo, "nominatim"⟩ := by
                simpa [parse_geo_items, hdn, hskip, hla, hlo, hbreak] using hr
              subst this
              exact hskip.2
            · have h := ih (n :: seen) (count + 1)
              constructor
              · simp only [parse_geo_items, hdn, hskip.1, hskip.2, if_neg,
                  or_self, if_false, hbreak, hla, hlo, List.map_cons]
                rw [List.nodup_cons]
                refine ⟨?_, by simpa [hdn, hskip, hla, hlo, hbreak] using h.1⟩
                intro hmem
                simp only [List.mem_map] at hmem
                obtain ⟨r, hr, hrn⟩ := hmem
                exact h.2 r hr (by rw [hrn]; exact List.mem_cons_self n seen)
              · intro r hr
                rcases (by simpa [parse_geo_items, hdn, hskip, hla, hlo, hbreak]
                    using hr :
                    r = ⟨n, la, lo, "nominatim"⟩ ∨
                      r ∈ parse_geo_items rest (n :: seen) (count + 1)) with
                  heq | htail
                · subst heq; exact hskip.2
                · exact fun hmem => h.2 r htail (List.mem_cons_of_mem n hmem)

theorem parse_geo_items_provenance :
    ∀ (items : List RawGeoItem) (seen : List String) (count : Nat),
      ∀ r ∈ parse_geo_items items seen count,
        ∃ it ∈ items, it.display_name = some r.display_name ∧
          it.lat = some r.lat ∧ it.lon = some r.lon ∧ r.source = "nominatim" := by
  intro items
  induction items with
  | nil => intro seen count r hr; simp [parse_geo_items] at hr
  | cons it rest ih =>
    intro seen count r hr
    cases hdn : it.display_name with
    | none =>
      obtain ⟨it', hm, h⟩ := ih seen count r
        (by simpa [parse_geo_items, hdn] using hr)
      exact ⟨it', List.mem_cons_of_mem it hm, h⟩
    | some n =>
      by_cases hskip : n = "" ∨ n ∈ seen
      · obtain ⟨it', hm, h⟩ := ih seen count r
          (by simpa [parse_geo_items, hdn, hskip] using hr)
        exact ⟨it', List.mem_cons_of_mem it hm, h⟩
      · cases hla : it.lat with
        | none =>
          obtain ⟨it', hm, h⟩ := ih (n :: seen) count r
            (by simpa [parse_geo_items, hdn, hskip, hla] using hr)
          exact ⟨it', List.mem_cons_of_mem it hm, h⟩
        | some la =>
          cases hlo : it.lon with
          | none =>
            obtain ⟨it', hm, h⟩ := ih (n :: seen) count r
              (by simpa [parse_geo_items, hdn, hskip, hla, hlo] using hr)
            exact ⟨it', List.mem_cons_of_mem it hm, h⟩
          | some lo =>
            by_cases hbreak : 3 ≤ count + 1
            · have : r = ⟨n, la, lo, "nominatim"⟩ := by
                simpa [parse_geo_items, hdn, hskip, hla, hlo, hbreak] using hr
              subst this
              exact ⟨it, List.mem_cons_self it rest, by simp [hdn, hla, hlo]⟩
            · rcases (by simpa [parse_geo_items, hdn, hskip, hla, hlo, hbreak]
                  using hr :
                  r = ⟨n, la, lo, "nominatim"⟩ ∨
                    r ∈ parse_geo_items rest (n :: seen) (count + 1)) with
                heq | htail
              · subst heq
                exact ⟨it, List.mem_cons_self it rest, by simp [hdn, hla, hlo]⟩
              · obtain ⟨it', hm, h⟩ := ih (n :: seen) (count + 1) r htail
                exact ⟨it', List.mem_cons_of_mem it hm, h⟩

theorem parse_geo_items_order :
    ∀ (items : List RawGeoItem) (seen : List String) (count : Nat),
      ((parse_geo_items items seen count).map
          (fun r => r.display_name)).Sublist
        (items.filterMap (fun it => it.display_name)) := by
  intro items
  induction items with
  | nil => intro seen count; simp [parse_geo_items]
  | cons it rest ih =>
    intro seen count
    cases hdn : it.display_name with
    | none =>
      simpa [parse_geo_items, hdn, List.filterMap_cons] using ih seen count
    | some n =>
      rw [List.filterMap_cons, hdn]
      by_cases hskip : n = "" ∨ n ∈ seen
      · exact List.Sublist.trans
          (by simpa [parse_geo_items, hdn, hskip] using ih seen count)
          (List.sublist_cons_self n _)
      · cases hla : it.lat with
        | none =>
          exact List.Sublist.trans
            (by simpa [parse_geo_items, hdn, hskip, hla] using ih (n :: seen) count)
            (List.sublist_cons_self n _)
        | some la =>
          cases hlo : it.lon with
          | none =>
            exact List.Sublist.trans
              (by simpa [parse_geo_items, hdn, hskip, hla, hlo] using
                ih (n :: seen) count)
              (List.sublist_cons_self n _)
          | some lo =>
            by_cases hbreak : 3 ≤ count + 1
            · simp only [parse_geo_items, hdn, hla, hlo]
              rw [if_neg hskip, if_pos hbreak]
              simp only [List.map_cons, List.map_nil]
              exact (List.nil_sublist
                (List.filterMap (fun it => it.display_name) rest)).cons₂ n
            · simp only [parse_geo_items, hdn, hla, hlo]
              rw [if_neg hskip, if_neg hbreak]
              simpa using (ih (n :: seen) (count + 1)).cons₂ n

/-- C7: for every provider response (possibly with duplicate names, missing
names, and unparsable coordinates), the parsed result of
`_perform_request` has at most one candidate per distinct display name,
keeps only entries whose lat/lon parsed to floats (each candidate's
coordinates come from its source item's parsed values), preserves provider
order, and never exceeds 3 candidates. -/
theorem resolver_dedup_and_cap (items : List RawGeoItem) :
    (parse_geo_items items [] 0).length ≤ 3 ∧
    ((parse_geo_items items [] 0).map (fun r => r.display_name)).Nodup ∧
    (∀ r ∈ parse_geo_items items [] 0,
      ∃ it ∈ items, it.display_name = some r.display_name ∧
        it.lat = some r.lat ∧ it.lon = some r.lon ∧ r.source = "nominatim") ∧
    ((parse_geo_items items [] 0).map (fun r => r.display_name)).Sublist
      (items.filterMap (fun it => it.display_name)) :=
  ⟨parse_geo_items_length items [] 0 (by omega),
    (parse_geo_items_nodup items [] 0).1,
    parse_geo_items_provenance items [] 0,
    parse_geo_items_order items [] 0⟩

/-- Witness for C7 (the spec scenario): 5 raw matches with one exact
duplicate and one null-name entry parse to exactly 3 unique candidates,
the first named `Bangalore`. -/
theorem resolver_dedup_and_cap_witness :
    parse_geo_items
      [⟨some "Bangalore, Karnataka, India", some 12, some 77⟩,
       ⟨some "Bangalore, Karnataka, India", some 12, some 77⟩,
       ⟨none, some 1, some 2⟩,
       ⟨some "Bangalore Rural, India", some 13, some 77⟩,
       ⟨some "Bangalore Urban, India", some 13, some 78⟩] [] 0 =
      [⟨"Bangalore, Karnataka, India", 12, 77, "nominatim"⟩,
       ⟨"Bangalore Rural, India", 13, 77, "nominatim"⟩,
       ⟨"Bangalore Urban, India", 13, 78, "nominatim"⟩] ∧
    (parse_geo_items
      [⟨some "Bangalore, Karnataka, India", some 12, some 77⟩,
       ⟨some "Bangalore, Karnataka, India", some 12, some 77⟩,
       ⟨none, some 1, some 2⟩,
       ⟨some "Bangalore Rural, India", some 13, some 77⟩,
       ⟨some "Bangalore Urban, India", some 13, some 78⟩] [] 0).length ≤ 3 := by
  refine ⟨by decide, ?_⟩
  exact (resolver_dedup_and_cap
    [⟨some "Bangalore, Karnataka, India", some 12, some 77⟩,
     ⟨some "Bangalore, Karnataka, India", some 12, some 77⟩,
     ⟨none, some 1, some 2⟩,
     ⟨some "Bangalore Rural, India", some 13, some 77⟩,
     ⟨some "Bangalore Urban, India", some 13, some 78⟩]).1

/-- `ALIAS_MAP.get(key, [])`: static alias table of alternate/historical
place names mapped to canonical query variants. -/
def ALIAS_MAP (k : String) : List String :=
  if k = "bangalore" then ["bengaluru", "bengaluru, india"]
  else if k = "bengaluru" then ["bengaluru, india", "bengaluru, karnataka"]
  else if k = "bombay" then ["mumbai", "mumbai, india"]
  else if k = "calcutta" then ["kolkata", "kolkata, india"]
  else if k = "madras" then ["chennai", "chennai, india"]
  else if k = "peking" then ["beijing", "beijing, china"]
  else if k = "saigon" then ["ho chi minh city", "ho chi minh city, vietnam"]
  else if k = "paris" then ["paris, france"]
  else if k = "london" then ["london, uk", "london, united kingdom"]
  else if k = "tokyo" then ["tokyo, japan"]
  else if k = "new york" then ["new york, usa", "new york city"]
  else if k = "goa" then ["goa, india"]
  else []

/-- `STATIC_FALLBACK_RAW.get(key)`: static offline coordinate table. -/
def STATIC_FALLBACK_RAW (k : String) : Option (String × ℚ × ℚ) :=
  if k = "bengaluru" then some ("Bengaluru, India", 12.9716, 77.5946)
  else if k = "bangalore" then some ("Bengaluru, India", 12.9716, 77.5946)
  else if k = "goa" then some ("Goa, India", 15.2993, 74.1240)
  else if k = "mumbai" then some ("Mumbai, India", 19.0760, 72.8777)
  else if k = "delhi" then some ("Delhi, India", 28.6139, 77.2090)
  else if k = "paris" then some ("Paris, France", 48.8566, 2.3522)
  else if k = "london" then some ("London, United Kingdom", 51.5072, -0.1276)
  else if k = "tokyo" then some ("Tokyo, Japan", 35.6762, 139.6503)
  else if k = "new york" then some ("New York City, USA", 40.7128, -74.0060)
  else none

/-- `_static_result`: a single synthetic candidate tagged `source = static`
from the offline table, if present. -/
def static_result (k : String) : Option GeocodeResult :=
  match STATIC_FALLBACK_RAW k with
  | none => none
  | some (name, la, lo) => some ⟨name, la, lo, "static"⟩

/-- The alias loop of `geocode_place`: try each variant through the primary
lookup in listed order, returning the first variant's non-empty result
(`except ValueError: continue` skips failing variants; an empty `ok` list
also falls through, matching `if results: return results`). -/
def try_variants (primary : String → Except Unit (List GeocodeResult)) :
    List String → Option (List GeocodeResult)
  | [] => none
  | v :: rest =>
    match primary v with
    | .ok results =>
      if results = [] then try_variants primary rest else some results
    | .error _ => try_variants primary rest

/-- `key = query.strip().lower()`: whitespace trimmed from both ends, then
lowercased, written with structural list operations (ASCII coverage, which
is all the alias/static tables need). -/
def canonical_key (query : String) : String :=
  String.mk
    ((((query.data.dropWhile Char.isWhitespace).reverse.dropWhile
        Char.isWhitespace).reverse).map Char.toLower)

/-- `geocode_place` (normal path, the TTL-cache decorator stripped): primary
lookup first; on `ValueError` consult the alias table for the canonical
key, trying each variant through the primary lookup; if the alias table is
empty or all variants fail, fall back to the static offline table; raise
only when every tier yields nothing.  The primary lookup `_perform_request`
is an oracle: `.error ()` models a raised `ValueError` (no matches, bad
shape, or transport failure after its internal retries). -/
def geocode_place (primary : String → Except Unit (List GeocodeResult))
    (query : String) : Except Unit (List GeocodeResult) :=
  let key := canonical_key query
  if key = "" then .error ()
  else
    match primary query with
    | .ok results => .ok results
    | .error _ =>
      match ALIAS_MAP key with
      | [] =>
        match static_result key with
        | some s => .ok [s]
        | none => .error ()
      | v :: rest =>
        match try_variants primary (v :: rest) with
        | some results => .ok results
        | none =>
          match static_result key with
          | some s => .ok [s]
          | none => .error ()

/-- `try_variants` returns the first variant (in listed order) whose primary
lookup succeeds with a non-empty list; all earlier variants either raised
or returned empty. -/
theorem try_variants_first_nonempty
    (primary : String → Except Unit (List GeocodeResult)) :
    ∀ (vs : List String) (r : List GeocodeResult),
      try_variants primary vs = some r →
      ∃ (i : Nat) (v : String), vs[i]? = some v ∧ primary v = .ok r ∧ r ≠ [] ∧
        ∀ (j : Nat) (w : String), j < i → vs[j]? = some w →
          primary w = .error () ∨ primary w = .ok [] := by
  intro vs
  induction vs with
  | nil => intro r h; simp [try_variants] at h
  | cons v rest ih =>
    intro r h
    cases hp : primary v with
    | ok results =>
      by_cases hres : results = []
      · subst hres
        obtain ⟨i, w, hw, hpw, hr, hmin⟩ := ih r
          (by simpa [try_variants, hp] using h)
        refine ⟨i + 1, w, by simpa using hw, hpw, hr, ?_⟩
        intro j w' hj hw'
        cases j with
        | zero =>
          simp at hw'
          subst hw'
          exact Or.inr (by simpa using hp)
        | succ j =>
          exact hmin j w' (by omega) (by simpa using hw')
      · have hr : r = results := by
          have := h
          simp [try_variants, hp, hres] at this
          exact this.symm
        subst hr
        exact ⟨0, v, by simp, hp, hres, fun j w hj _ => absurd hj (by omega)⟩
    | error e =>
      obtain ⟨i, w, hw, hpw, hr, hmin⟩ := ih r
        (by simpa [try_variants, hp] using h)
      refine ⟨i + 1, w, by simpa using hw, hpw, hr, ?_⟩
      intro j w' hj hw'
      cases j with
      | zero =>
        simp at hw'
        subst hw'
        exact Or.inl (by simpa using hp)
      | succ j =>
        exact hmin j w' (by omega) (by simpa using hw')

/-- C6: resolver fallback order.  With a primary lookup that never returns
an empty `ok` list (true of `_perform_request`, which raises instead) and a
non-empty canonical key: (1) a successful primary lookup is returned as-is
(no fallback consulted); (2) when the primary lookup raises, a first
non-empty alias-variant result is returned; (3) when the primary lookup
raises and every alias variant yields nothing, the static table alone
decides between a single `source = static` candidate and failure; and
(4) the resolver fails only when every tier yielded nothing. -/
theorem resolver_fallback_order
    (primary : String → Except Unit (List GeocodeResult)) (query : String)
    (hinv : ∀ q l, primary q = .ok l → l ≠ [])
    (hkey : canonical_key query ≠ "") :
    (∀ l, primary query = .ok l → geocode_place primary query = .ok l) ∧
    (primary query = .error () →
      ∀ r, try_variants primary (ALIAS_MAP (canonical_key query)) = some r →
        geocode_place primary query = .ok r) ∧
    (primary query = .error () →
      try_variants primary (ALIAS_MAP (canonical_key query)) = none →
      geocode_place primary query =
        (match static_result (canonical_key query) with
          | some s => .ok [s]
          | none => .error ())) ∧
    (geocode_place primary query = .error () →
      primary query = .error () ∧
      try_variants primary (ALIAS_MAP (canonical_key query)) = none ∧
      static_result (canonical_key query) = none) := by
  refine ⟨?_, ?_, ?_, ?_⟩
  · intro l hl
    simp [geocode_place, hkey, hl]
  · intro hfail r htv
    cases hal : ALIAS_MAP (canonical_key query) with
    | nil => rw [hal] at htv; simp [try_variants] at htv
    | cons v rest =>
      rw [hal] at htv
      simp [geocode_place, hkey, hfail, hal, htv]
  · intro hfail htv
    cases hal : ALIAS_MAP (canonical_key query) with
    | nil =>
      cases hst : static_result (canonical_key query) with
      | none => simp [geocode_place, hkey, hfail, hal, hst]
      | some s => simp [geocode_place, hkey, hfail, hal, hst]
    | cons v rest =>
      rw [hal] at htv
      cases hst : static_result (canonical_key query) with
      | none => simp [geocode_place, hkey, hfail, hal, htv, hst]
      | some s => simp [geocode_place, hkey, hfail, hal, htv, hst]
  · intro herr
    cases hp : primary query with
    | ok results => rw [geocode_place] at herr; simp [hkey, hp] at herr
    | error e =>
      cases e
      refine ⟨rfl, ?_⟩
      cases hal : ALIAS_MAP (canonical_key query) with
      | nil =>
        refine ⟨rfl, ?_⟩
        cases hst : static_result (canonical_key query) with
        | none => rfl
        | some s =>
          rw [geocode_place] at herr
          simp [hkey, hp, hal, hst] at herr
      | cons v rest =>
        cases htv : try_variants primary (v :: rest) with
        | some r =>
          rw [geocode_place] at herr
          simp [hkey, hp, hal, htv] at herr
        | none =>
          refine ⟨rfl, ?_⟩
          cases hst : static_result (canonical_key query) with
          | none => rfl
          | some s =>
            rw [geocode_place] at herr
            simp [hkey, hp, hal, htv, hst] at herr

/-- A concrete primary lookup for the C6 witness: only the query `mumbai`
succeeds. -/
def witnessPrimary (q : String) : Except Unit (List GeocodeResult) :=
  if q = "mumbai" then .ok [⟨"Mumbai, Maharashtra, India", 19, 72, "nominatim"⟩]
  else .error ()

/-- Witness for C6: the query `Bombay` fails at the primary tier, and the
alias table's first variant `mumbai` resolves, so `geocode_place` returns
that variant's result. -/
theorem resolver_fallback_order_witness :
    geocode_place witnessPrimary "Bombay" =
      .ok [⟨"Mumbai, Maharashtra, India", 19, 72, "nominatim"⟩] := by
  have hinv : ∀ q l, witnessPrimary q = .ok l → l ≠ [] := by
    intro q l h
    by_cases hq : q = "mumbai"
    · rw [witnessPrimary, if_pos hq] at h
      cases h
      simp
    · rw [witnessPrimary, if_neg hq] at h
      cases h
  exact (resolver_fallback_order witnessPrimary "Bombay" hinv
    (by decide)).2.1 rfl _ rfl

/-! ## Places fetcher — `backend/app/agents/places_agent.py`, `fetch_places` -/

/-- A point of interest as produced by `parse_overpass_elements`: a name,
an optional `category`, and optional coordinates. -/
structure POI where
  name : String
  category : Option String
  lat : Option ℚ
  lon : Option ℚ
  deriving DecidableEq

def DEFAULT_RADIUS : Int := 5000
def RADIUS_EXPANSION_FACTOR : Int := 2
def MAX_EXPANSIONS : Nat := 1
def POI_LIMIT : Nat := 5

/-- The dict comprehension
`{p["name"]: p for p in poi_list if p.get("name")}` as an
insertion-ordered dict: later duplicates overwrite the stored value while
the key keeps its first-occurrence position. -/
def py_dict_fold (m : List (String × POI)) (ps : List POI) :
    List (String × POI) :=
  ps.foldl (fun m p => dict_insert m p.name p) m

def py_dict_of (ps : List POI) : List (String × POI) := py_dict_fold [] ps

/-- `list(dedup.values())`. -/
def py_dict_values (ps : List POI) : List POI := (py_dict_of ps).map Prod.snd

/-- Radius-expansion loop of `fetch_places`.  The Python loop runs
`while expansions <= MAX_EXPANSIONS` with `expansions` incremented each
pass; `remaining` is the fuel `MAX_EXPANSIONS + 1 - expansions`.  `fetch r`
is the outcome of the cache+retry-wrapped `_fetch` at radius `r`
(`.error ()` models a raised exception, turned into `places = []`).  The
counter in the second component counts `_fetch` invocations.  Every exit
path truncates to `limit` (`all_places[:limit]`). -/
def fetch_places_go (fetch : Int → Except Unit (List POI)) (limit : Nat) :
    Nat → Int → List POI → Nat → List POI × Nat
  | 0, _, acc, calls => (acc.take limit, calls)
  | remaining + 1, radius, acc, calls =>
    let places := match fetch radius with | .ok ps => ps | .error _ => []
    let acc' := py_dict_values ((acc ++ places).filter (fun p => p.name ≠ ""))
    if limit ≤ acc'.length then (acc'.take limit, calls + 1)
    else fetch_places_go fetch limit remaining
      (radius * RADIUS_EXPANSION_FACTOR) acc' (calls + 1)

/-- `fetch_places(lat, lon, radius, limit)` with the remote fetch abstracted
to the radius-indexed oracle `fetch`: returns the final POI list and the
number of raw fetches performed. -/
def fetch_places (fetch : Int → Except Unit (List POI)) (radius : Int)
    (limit : Nat) : List POI × Nat :=
  fetch_places_go fetch limit (MAX_EXPANSIONS + 1) radius [] 0

theorem fetch_places_go_bound (fetch : Int → Except Unit (List POI))
    (limit : Nat) :
    ∀ (fuel : Nat) (radius : Int) (acc : List POI) (calls : Nat),
      (fetch_places_go fetch limit fuel radius acc calls).2 ≤ calls + fuel ∧
      (fetch_places_go fetch limit fuel radius acc calls).1.length ≤ limit := by
  intro fuel
  induction fuel with
  | zero =>
    intro radius acc calls
    simp [fetch_places_go]
  | succ fuel ih =>
    intro radius acc calls
    rw [fetch_places_go]
    set acc' := py_dict_values
      ((acc ++ (match fetch radius with | .ok ps => ps | .error _ => [])).filter
        (fun p => p.name ≠ "")) with hacc
    by_cases hbr : limit ≤ acc'.length
    · simp only [hbr, if_true]
      exact ⟨by omega, by simp⟩
    · simp only [hbr, if_false]
      have h := ih (radius * RADIUS_EXPANSION_FACTOR) acc' (calls + 1)
      exact ⟨by omega, h.2⟩

/-- C9: a single `fetch_places` call performs at most 2 raw fetches, no
matter how few results each fetch returns (including empty results or a
raised fetch on both passes), and returns at most `limit` entries. -/
theorem places_bounded_raw_fetches (fetch : Int → Except Unit (List POI))
    (radius : Int) (limit : Nat) :
    (fetch_places fetch radius limit).2 ≤ 2 ∧
    (fetch_places fetch radius limit).1.length ≤ limit := by
  have h := fetch_places_go_bound fetch limit (MAX_EXPANSIONS + 1) radius [] 0
  exact ⟨by simpa [MAX_EXPANSIONS] using h.1, h.2⟩

/-- An oracle for the C2 counterexample: the initial radius returns the
POI `A` with category `x`; the expanded radius returns `A` again with
category `y`. -/
def dupFetch (r : Int) : Except Unit (List POI) :=
  if r = 5000 then .ok [⟨"A", some "x", none, none⟩]
  else .ok [⟨"A", some "y", none, none⟩]

/-- Counterexample for C2: with the same name `A` in the initial-radius
batch (category `x`) and in the expanded-radius batch (category `y`),
`fetch_places` returns the entry of the later, larger-radius batch — the
dict comprehension `{p["name"]: p for p in (all_places + places)}`
overwrites the value — so the first occurrence's category is not kept. -/
theorem places_dedup_overwrite_counterexample :
    (fetch_places dupFetch 5000 5).1 = [⟨"A", some "y", none, none⟩] ∧
    (⟨"A", some "y", none, none⟩ : POI).category ≠ some "x" := by
  constructor
  · rfl
  · decide

/-! ### Properties of the insertion-ordered dict used by the dedup merge -/

theorem mem_dict_insert {κ : Type u} {α : Type v} [DecidableEq κ]
    (m : List (κ × α)) (k : κ) (v : α) :
    ∀ e ∈ dict_insert m k v, e ∈ m ∨ e = (k, v) := by
  induction m with
  | nil => intro e he; simp [dict_insert] at he; exact Or.inr he
  | cons f rest ih =>
    intro e he
    by_cases h : f.1 = k
    · rw [dict_insert, if_pos h] at he
      rcases List.mem_cons.mp he with h1 | h2
      · exact Or.inr h1
      · exact Or.inl (List.mem_cons_of_mem f h2)
    · rw [dict_insert, if_neg h] at he
      rcases List.mem_cons.mp he with h1 | h2
      · exact Or.inl (h1 ▸ List.mem_cons_self f rest)
      · rcases ih e h2 with h3 | h4
        · exact Or.inl (List.mem_cons_of_mem f h3)
        · exact Or.inr h4

theorem alookup_eq_none_iff {κ : Type u} {α : Type v} [DecidableEq κ]
    (k : κ) (m : List (κ × α)) :
    alookup k m = none ↔ k ∉ m.map Prod.fst := by
  induction m with
  | nil => simp [alookup]
  | cons e rest ih =>
    by_cases h : e.1 = k
    · simp [alookup, h]
    · simp [alookup, h, ih, Ne.symm h]

theorem dict_insert_of_lookup_none {κ : Type u} {α : Type v} [DecidableEq κ]
    (m : List (κ × α)) (k : κ) (v : α) (h : alookup k m = none) :
    dict_insert m k v = m ++ [(k, v)] := by
  induction m with
  | nil => rfl
  | cons e rest ih =>
    rw [alookup] at h
    by_cases he : e.1 = k
    · rw [if_pos he] at h; cases h
    · rw [if_neg he] at h
      rw [dict_insert, if_neg he, ih h, List.cons_append]

theorem dkeys_dict_insert_of_some {κ : Type u} {α : Type v} [DecidableEq κ]
    (m : List (κ × α)) (k : κ) (v w : α) (h : alookup k m = some w) :
    (dict_insert m k v).map Prod.fst = m.map Prod.fst := by
  induction m with
  | nil => cases h
  | cons e rest ih =>
    rw [alookup] at h
    by_cases he : e.1 = k
    · rw [dict_insert, if_pos he]
      simp [he]
    · rw [if_neg he] at h
      rw [dict_insert, if_neg he, List.map_cons, List.map_cons, ih h]

theorem alookup_append_left_none {κ : Type u} {α : Type v} [DecidableEq κ]
    (k : κ) (m m' : List (κ × α)) (h : alookup k m = none) :
    alookup k (m ++ m') = alookup k m' := by
  induction m with
  | nil => rfl
  | cons e rest ih =>
    rw [alookup] at h
    by_cases he : e.1 = k
    · rw [if_pos he] at h; cases h
    · rw [if_neg he] at h
      rw [List.cons_append, alookup, if_neg he, ih h]

theorem alookup_of_mem_nodup {κ : Type u} {α : Type v} [DecidableEq κ]
    (m : List (κ × α)) (k : κ) (v : α) (hnd : (m.map Prod.fst).Nodup)
    (hm : (k, v) ∈ m) : alookup k m = some v := by
  induction m with
  | nil => cases hm
  | cons e rest ih =>
    rcases List.mem_cons.mp hm with h1 | h2
    · rw [← h1, alookup, if_pos rfl]
    · have hk : k ∈ rest.map Prod.fst :=
        List.mem_map.mpr ⟨(k, v), h2, rfl⟩
      have he : e.1 ≠ k := by
        intro hek
        rw [List.map_cons, List.nodup_cons] at hnd
        exact hnd.1 (hek ▸ hk)
      rw [alookup, if_neg he]
      exact ih (by rw [List.map_cons, List.nodup_cons] at hnd; exact hnd.2) h2

theorem py_dict_fold_append (m : List (String × POI)) (ps qs : List POI) :
    py_dict_fold m (ps ++ qs) = py_dict_fold (py_dict_fold m ps) qs := by
  simp [py_dict_fold, List.foldl_append]

theorem py_dict_fold_name_inv (ps : List POI) :
    ∀ m : List (String × POI), (∀ e ∈ m, e.2.name = e.1) →
      ∀ e ∈ py_dict_fold m ps, e.2.name = e.1 := by
  induction ps with
  | nil => intro m hm e he; exact hm e he
  | cons p rest ih =>
    intro m hm e he
    refine ih (dict_insert m p.name p) ?_ e he
    intro f hf
    rcases mem_dict_insert m p.name p f hf with h1 | h2
    · exact hm f h1
    · rw [h2]

theorem py_dict_fold_provenance (ps : List POI) :
    ∀ (m : List (String × POI)) (e : String × POI),
      e ∈ py_dict_fold m ps → e ∈ m ∨ e.2 ∈ ps := by
  induction ps with
  | nil => intro m e he; exact Or.inl he
  | cons p rest ih =>
    intro m e he
    rcases ih (dict_insert m p.name p) e he with h1 | h2
    · rcases mem_dict_insert m p.name p e h1 with h3 | h4
      · exact Or.inl h3
      · exact Or.inr (by rw [h4]; exact List.mem_cons_self p rest)
    · exact Or.inr (List.mem_cons_of_mem p h2)

theorem py_dict_fold_keys_extend (ps : List POI) :
    ∀ m : List (String × POI), ∃ new,
      (py_dict_fold m ps).map Prod.fst = m.map Prod.fst ++ new := by
  induction ps with
  | nil => intro m; exact ⟨[], by simp [py_dict_fold]⟩
  | cons p rest ih =>
    intro m
    obtain ⟨new, hnew⟩ := ih (dict_insert m p.name p)
    have hstep : py_dict_fold m (p :: rest) =
        py_dict_fold (dict_insert m p.name p) rest := rfl
    cases hl : alookup p.name m with
    | some w =>
      exact ⟨new, by
        rw [hstep, hnew, dkeys_dict_insert_of_some m p.name p w hl]⟩
    | none =>
      refine ⟨p.name :: new, ?_⟩
      rw [hstep, hnew, dict_insert_of_lookup_none m p.name p hl]
      simp

theorem py_dict_fold_keys_nodup (ps : List POI) :
    ∀ m : List (String × POI), (m.map Prod.fst).Nodup →
      ((py_dict_fold m ps).map Prod.fst).Nodup := by
  induction ps with
  | nil => intro m hm; exact hm
  | cons p rest ih =>
    intro m hm
    refine ih (dict_insert m p.name p) ?_
    cases hl : alookup p.name m with
    | some w => rw [dkeys_dict_insert_of_some m p.name p w hl]; exact hm
    | none =>
      rw [dict_insert_of_lookup_none m p.name p hl, List.map_append]
      rw [List.nodup_append]
      refine ⟨hm, List.nodup_singleton _, ?_⟩
      intro a ha hb
      simp at hb
      exact (alookup_eq_none_iff p.name m).mp hl (hb ▸ ha)

theorem py_dict_fold_key_of_name (ps : List POI) :
    ∀ (m : List (String × POI)) (k : String), k ∈ ps.map POI.name →
      k ∈ (py_dict_fold m ps).map Prod.fst := by
  induction ps with
  | nil => intro m k hk; simp at hk
  | cons p rest ih =>
    intro m k hk
    rw [List.map_cons] at hk
    rcases List.mem_cons.mp hk with h1 | h2
    · obtain ⟨new, hnew⟩ := py_dict_fold_keys_extend rest (dict_insert m p.name p)
      have hstep : py_dict_fold m (p :: rest) =
          py_dict_fold (dict_insert m p.name p) rest := rfl
      rw [hstep, hnew]
      refine List.mem_append_left _ ?_
      cases hl : alookup p.name m with
      | some w =>
        rw [dkeys_dict_insert_of_some m p.name p w hl]
        have : p.name ∈ m.map Prod.fst := by
          by_contra hc
          rw [← alookup_eq_none_iff p.name m] at hc
          rw [hc] at hl
          cases hl
        exact h1 ▸ this
      | none =>
        rw [dict_insert_of_lookup_none m p.name p hl, List.map_append]
        exact List.mem_append_right _ (by simp [h1])
    · exact ih (dict_insert m p.name p) k h2

theorem py_dict_fold_of_fresh_nodup (ps : List POI) :
    ∀ m : List (String × POI), (∀ p ∈ ps, alookup p.name m = none) →
      (ps.map POI.name).Nodup →
      py_dict_fold m ps = m ++ ps.map (fun p => (p.name, p)) := by
  induction ps with
  | nil => intro m _ _; simp [py_dict_fold]
  | cons p rest ih =>
    intro m hfresh hnd
    have hstep : py_dict_fold m (p :: rest) =
        py_dict_fold (dict_insert m p.name p) rest := rfl
    rw [List.map_cons, List.nodup_cons] at hnd
    have hins : dict_insert m p.name p = m ++ [(p.name, p)] :=
      dict_insert_of_lookup_none m p.name p
        (hfresh p (List.mem_cons_self p rest))
    rw [hstep, ih (dict_insert m p.name p) ?_ hnd.2, hins]
    · simp
    · intro q hq
      rw [hins]
      rw [alookup_append_left_none q.name m _
        (hfresh q (List.mem_cons_of_mem p hq))]
      rw [alookup, if_neg ?_]
      · rfl
      · intro he
        have hq' : q.name ∈ List.map POI.name rest :=
          List.mem_map.mpr ⟨q, hq, rfl⟩
        have hpq : p.name = q.name := he
        exact hnd.1 (hpq.symm ▸ hq')


/-- The last entry of `ps` carrying name `k` (the value a Python dict
comprehension keyed by name ends up storing). -/
def last_with (k : String) (ps : List POI) : Option POI :=
  (ps.filter (fun p => p.name = k)).getLast?

theorem getLast?_cons_of_ne_nil {α : Type u} (a : α) (l : List α)
    (h : l ≠ []) : (a :: l).getLast? = l.getLast? := by
  cases l with
  | nil => cases h rfl
  | cons b t => rw [List.getLast?_cons_cons]

theorem getLast?_append_of_ne_nil {α : Type u} (l₁ l₂ : List α)
    (h : l₂ ≠ []) : (l₁ ++ l₂).getLast? = l₂.getLast? := by
  induction l₁ with
  | nil => rfl
  | cons a t ih =>
    rw [List.cons_append, getLast?_cons_of_ne_nil a (t ++ l₂)
      (fun hc => h (List.append_eq_nil.mp hc).2), ih]

/-- The dict comprehension stores, under each present name, the last entry
of the iterated list carrying that name. -/
theorem py_dict_fold_lookup_last (ps : List POI) :
    ∀ (m : List (String × POI)) (k : String),
      alookup k (py_dict_fold m ps) =
        if k ∈ ps.map POI.name then last_with k ps else alookup k m := by
  induction ps with
  | nil => intro m k; simp [py_dict_fold]
  | cons p rest ih =>
    intro m k
    have hstep : py_dict_fold m (p :: rest) =
        py_dict_fold (dict_insert m p.name p) rest := rfl
    rw [hstep, ih (dict_insert m p.name p) k]
    by_cases hk : k ∈ rest.map POI.name
    · rw [if_pos hk,
        if_pos (by rw [List.map_cons]; exact List.mem_cons_of_mem _ hk)]
      have hfne : rest.filter (fun p => p.name = k) ≠ [] := by
        obtain ⟨q, hq, hqn⟩ := List.mem_map.mp hk
        exact List.ne_nil_of_mem (List.mem_filter.mpr ⟨hq, by simp [hqn]⟩)
      by_cases hp : p.name = k
      · rw [last_with, last_with, List.filter_cons, if_pos (by simp [hp]),
          getLast?_cons_of_ne_nil p _ hfne]
      · rw [last_with, last_with, List.filter_cons, if_neg (by simp [hp])]
    · rw [if_neg hk]
      by_cases hp : p.name = k
      · rw [if_pos (by rw [List.map_cons, hp]; exact List.mem_cons_self k _)]
        rw [hp, alookup_dict_insert_self m k p]
        have hfnil : rest.filter (fun q => q.name = k) = [] := by
          rw [List.filter_eq_nil_iff]
          intro q hq hqk
          exact hk (List.mem_map.mpr ⟨q, hq, by simpa using hqk⟩)
        rw [last_with, List.filter_cons, if_pos (by simp [hp]), hfnil]
        rfl
      · rw [if_neg (by
          rw [List.map_cons]
          intro hc
          rcases List.mem_cons.mp hc with h1 | h2
          · exact hp h1.symm
          · exact hk h2)]
        exact alookup_dict_insert_ne m p.name k p (fun h => hp h.symm)

theorem countP_eq_one_of_nodup_mem (l : List String) (n : String)
    (hnd : l.Nodup) (hm : n ∈ l) :
    l.countP (fun s => s = n) = 1 := by
  induction l with
  | nil => cases hm
  | cons a t ih =>
    rw [List.nodup_cons] at hnd
    rw [List.countP_cons]
    rcases List.mem_cons.mp hm with h1 | h2
    · subst h1
      rw [if_pos (by simp)]
      have hz : t.countP (fun s => s = n) = 0 := by
        rw [List.countP_eq_zero]
        intro s hs
        simp only [decide_eq_true_eq]
        intro he
        rw [he] at hs
        exact hnd.1 hs
      omega
    · have ha : ¬(decide (a = n) = true) := by
        simp only [decide_eq_true_eq]
        intro he
        exact hnd.1 (by rw [he]; exact h2)
      rw [if_neg ha, ih hnd.2 h2]

/-- One unfolding step of the radius-expansion loop when the fetch at the
current radius succeeds with batch `b`. -/
theorem fetch_places_go_step (fetch : Int → Except Unit (List POI))
    (limit remaining : Nat) (radius : Int) (acc : List POI) (calls : Nat)
    (b : List POI) (hb : fetch radius = .ok b) :
    fetch_places_go fetch limit (remaining + 1) radius acc calls =
      (if limit ≤
          (py_dict_values ((acc ++ b).filter (fun p => p.name ≠ ""))).length
        then
          ((py_dict_values ((acc ++ b).filter (fun p => p.name ≠ ""))).take
            limit, calls + 1)
        else fetch_places_go fetch limit remaining
          (radius * RADIUS_EXPANSION_FACTOR)
          (py_dict_values ((acc ++ b).filter (fun p => p.name ≠ "")))
          (calls + 1)) := by
  rw [fetch_places_go, hb]

/-- Under the C2 scenario hypotheses — both fetches succeed, all names are
non-empty, and the first deduplicated batch is below `limit` (so the
expansion happens) — `fetch_places` performs both fetches and returns the
truncated merge of the two batches. -/
theorem fetch_places_two_batches (fetch : Int → Except Unit (List POI))
    (radius : Int) (limit : Nat) (b0 b1 : List POI)
    (h0 : fetch radius = .ok b0)
    (h1 : fetch (radius * RADIUS_EXPANSION_FACTOR) = .ok b1)
    (hname : ∀ p ∈ b0 ++ b1, p.name ≠ "")
    (hsz : (py_dict_values b0).length < limit) :
    fetch_places fetch radius limit =
      ((py_dict_values (py_dict_values b0 ++ b1)).take limit, 2) := by
  have hname0 : ∀ p ∈ b0, p.name ≠ "" :=
    fun p hp => hname p (List.mem_append_left _ hp)
  have hname1 : ∀ p ∈ b1, p.name ≠ "" :=
    fun p hp => hname p (List.mem_append_right _ hp)
  have hsub : ∀ p ∈ py_dict_values b0, p ∈ b0 := by
    intro p hp
    obtain ⟨e, he, hep⟩ := List.mem_map.mp hp
    rcases py_dict_fold_provenance b0 [] e he with h | h
    · cases h
    · rw [← hep]; exact h
  have hf0 : (([] : List POI) ++ b0).filter (fun p => p.name ≠ "") = b0 := by
    rw [List.nil_append, List.filter_eq_self]
    intro p hp
    simp [hname0 p hp]
  have hf1 : (py_dict_values b0 ++ b1).filter (fun p => p.name ≠ "") =
      py_dict_values b0 ++ b1 := by
    rw [List.filter_eq_self]
    intro p hp
    rcases List.mem_append.mp hp with h | h
    · simp [hname0 _ (hsub p h)]
    · simp [hname1 p h]
  have e1 := fetch_places_go_step fetch limit 1 radius [] 0 b0 h0
  rw [hf0, if_neg (not_le.mpr hsz)] at e1
  have e2 := fetch_places_go_step fetch limit 0
    (radius * RADIUS_EXPANSION_FACTOR) (py_dict_values b0) 1 b1 h1
  rw [hf1] at e2
  have hunfold : fetch_places fetch radius limit =
      fetch_places_go fetch limit (1 + 1) radius [] 0 := rfl
  rw [hunfold, e1, e2]
  by_cases hbr : limit ≤ (py_dict_values (py_dict_values b0 ++ b1)).length
  · rw [if_pos hbr]
  · rw [if_neg hbr]
    rfl

/-- C2 (amended): when the same name appears in both the initial-radius
batch and the expanded-radius batch, the returned sequence contains that
name exactly once, but with the category and coordinates of its **last**
occurrence — the entry from the later, larger-radius batch overwrites the
earlier one in the dict comprehension (the stored entry is the last entry
of the second batch with that name). -/
theorem places_merge_last_occurrence_wins
    (fetch : Int → Except Unit (List POI)) (radius : Int) (limit : Nat)
    (b0 b1 : List POI) (n : String)
    (h0 : fetch radius = .ok b0)
    (h1 : fetch (radius * RADIUS_EXPANSION_FACTOR) = .ok b1)
    (hname : ∀ p ∈ b0 ++ b1, p.name ≠ "")
    (hsz : (py_dict_values b0).length < limit)
    (hn0 : n ∈ b0.map POI.name) (hn1 : n ∈ b1.map POI.name) :
    (fetch_places fetch radius limit).1.countP (fun p => p.name = n) = 1 ∧
    (∀ p ∈ (fetch_places fetch radius limit).1, p.name = n →
      last_with n b1 = some p) := by
  rw [fetch_places_two_batches fetch radius limit b0 b1 h0 h1 hname hsz]
  set A := py_dict_values b0 with hA
  set L := A ++ b1 with hL
  set D := py_dict_of L with hD
  set V := py_dict_values L with hV
  have hVD : V = D.map Prod.snd := rfl
  have hnameinv : ∀ e ∈ D, e.2.name = e.1 :=
    py_dict_fold_name_inv L [] (by intro e he; cases he)
  have hVnames : V.map POI.name = D.map Prod.fst := by
    rw [hVD, List.map_map]
    exact List.map_congr_left (fun e he => hnameinv e he)
  have hnodup : (D.map Prod.fst).Nodup :=
    py_dict_fold_keys_nodup L [] (by simp)
  have hnameinv0 : ∀ e ∈ py_dict_of b0, e.2.name = e.1 :=
    py_dict_fold_name_inv b0 [] (by intro e he; cases he)
  have hAnames : A.map POI.name = (py_dict_of b0).map Prod.fst := by
    rw [hA]
    show ((py_dict_of b0).map Prod.snd).map POI.name = _
    rw [List.map_map]
    exact List.map_congr_left (fun e he => hnameinv0 e he)
  have hAnodup : (A.map POI.name).Nodup := by
    rw [hAnames]
    exact py_dict_fold_keys_nodup b0 [] (by simp)
  have hApairs : py_dict_of A = A.map (fun p => (p.name, p)) := by
    have := py_dict_fold_of_fresh_nodup A [] (fun p _ => rfl) hAnodup
    rw [List.nil_append] at this
    exact this
  have hAkeys : (py_dict_of A).map Prod.fst = A.map POI.name := by
    rw [hApairs, List.map_map]
    rfl
  have hDfold : D = py_dict_fold (py_dict_of A) b1 := by
    rw [hD, hL]
    exact py_dict_fold_append [] A b1
  obtain ⟨new, hkeys⟩ := py_dict_fold_keys_extend b1 (py_dict_of A)
  have hnA : n ∈ A.map POI.name := by
    rw [hAnames]
    exact py_dict_fold_key_of_name b0 [] n hn0
  obtain ⟨⟨i, hi⟩, hgi⟩ := List.mem_iff_get.mp hnA
  have hilen : i < A.length := by simpa using hi
  have hilim : i < limit := by
    have : A.length < limit := hsz
    omega
  have hVn_i : (V.map POI.name)[i]? = some n := by
    rw [hVnames, hDfold, hkeys, hAkeys]
    rw [List.getElem?_append, if_pos hi]
    rw [List.getElem?_eq_getElem hi]
    exact congrArg some ((List.get_eq_getElem _ ⟨i, hi⟩).symm.trans hgi)
  obtain ⟨v, hvi, hvn⟩ : ∃ v, V[i]? = some v ∧ v.name = n := by
    rw [List.getElem?_map] at hVn_i
    cases hv' : V[i]? with
    | none => rw [hv'] at hVn_i; cases hVn_i
    | some v =>
      rw [hv'] at hVn_i
      exact ⟨v, rfl, by simpa using hVn_i⟩
  have hvtake : (V.take limit)[i]? = some v := by
    rw [List.getElem?_take]
    rw [if_pos hilim]
    exact hvi
  have hvmem : v ∈ V.take limit := by
    have h' := List.getElem?_eq_some.mp hvtake
    obtain ⟨hlt, hget⟩ := h'
    exact hget ▸ List.getElem_mem hlt
  constructor
  · show (V.take limit).countP (fun p => p.name = n) = 1
    have hcnt : V.countP (fun p => p.name = n) =
        (V.map POI.name).countP (fun s => s = n) := by
      rw [List.countP_map]
      rfl
    have hcV : V.countP (fun p => p.name = n) = 1 := by
      rw [hcnt]
      apply countP_eq_one_of_nodup_mem
      · rw [hVnames]; exact hnodup
      · rw [hVnames, hDfold, hkeys, hAkeys]
        exact List.mem_append_left _ hnA
    have hle : (V.take limit).countP (fun p => p.name = n) ≤ 1 := by
      rw [← hcV]
      exact (List.take_sublist limit V).countP_le _
    have hge : 0 < (V.take limit).countP (fun p => p.name = n) := by
      rw [List.countP_pos_iff]
      exact ⟨v, hvmem, by simp [hvn]⟩
    omega
  · intro p hp hpn
    have hpV : p ∈ V := (List.take_sublist limit V).subset hp
    obtain ⟨e, heD, hep⟩ := List.mem_map.mp (hVD ▸ hpV)
    have he1 : e.1 = n := by
      rw [← hnameinv e heD, hep, hpn]
    have heq : e = (n, p) := by
      cases e
      simp only [Prod.mk.injEq]
      exact ⟨he1, hep⟩
    have hlook : alookup n D = some p :=
      alookup_of_mem_nodup D n p hnodup (heq ▸ heD)
    have hmemL : n ∈ L.map POI.name := by
      rw [hL, List.map_append]
      exact List.mem_append_right _ hn1
    have hlast : alookup n D = last_with n L := by
      rw [hD]
      show alookup n (py_dict_fold [] L) = last_with n L
      rw [py_dict_fold_lookup_last L [] n, if_pos hmemL]
    have hlastb1 : last_with n L = last_with n b1 := by
      rw [last_with, last_with, hL, List.filter_append]
      apply getLast?_append_of_ne_nil
      obtain ⟨q, hq, hqn⟩ := List.mem_map.mp hn1
      exact List.ne_nil_of_mem (List.mem_filter.mpr ⟨hq, by simp [hqn]⟩)
    rw [← hlastb1, ← hlast, hlook]

/-- Witness for C2 (amended): with `A`(category `x`) at the initial radius
and `A`(category `y`) at the doubled radius, the result carries name `A`
exactly once. -/
theorem places_merge_last_occurrence_wins_witness :
    (fetch_places dupFetch 5000 5).1.countP (fun p => p.name = "A") = 1 := by
  exact (places_merge_last_occurrence_wins dupFetch 5000 5
    [⟨"A", some "x", none, none⟩] [⟨"A", some "y", none, none⟩] "A"
    rfl rfl (by decide) (by decide) (by decide) (by decide)).1

/-! ## Orchestrator — `backend/app/agents/parent_agent.py` -/

/-- The dict returned by the weather agent / `_run_weather` (keys of
`fetch_open_meteo`'s result plus the failure-path `error` key; a key absent
from the Python dict is `none`). -/
structure WeatherBlock where
  temperature : Option ℚ
  precipitation_probability : Option Int
  summary : Option String
  forecast : Option (List DailyForecast)
  error : Option String
  deriving DecidableEq

/-- `{"error": "Weather service temporarily unavailable"}`. -/
def weather_unavailable_block : WeatherBlock :=
  ⟨none, none, none, none, some "Weather service temporarily unavailable"⟩

/-- The response dict of `orchestrate`. -/
structure OrchestrationResult where
  place : Option String
  lat : Option ℚ
  lon : Option ℚ
  geocode_source : Option String
  weather : Option WeatherBlock
  places : Option (List String)
  places_geo : Option (List POI)
  text : String
  errors : Option (List String)
  deriving DecidableEq

/-- `fetch_weather` of the weather agent: the underlying Open-Meteo fetch
wrapped in `async_retry(retries=3, backoff_factor=0.5)`; `op n` is the
outcome of the `n`-th underlying fetch. -/
def fetch_weather (op : Nat → Except Unit WeatherBlock) :
    Option (Except Unit WeatherBlock) :=
  (asyncRetryRun 3 (1/2) op).outcome

/-- `_run_weather`: the weather task body with its catch-all exception
handler mapping any failure to the error block. -/
def run_weather (op : Nat → Except Unit WeatherBlock) : Option WeatherBlock :=
  match fetch_weather op with
  | some (.ok d) => some d
  | some (.error _) => some weather_unavailable_block
  | none => none

/-- `_run_places`: the places task body; any raised exception is mapped to
the empty list.  The task outcome is the oracle `res`. -/
def run_places (res : Except Unit (List POI)) : List POI :=
  match res with
  | .ok l => l
  | .error _ => []

/-- `py_strip`: Python `str.strip()` (ASCII whitespace), used by the
orchestrator's input check. -/
def py_strip (s : String) : String :=
  String.mk
    (((s.data.dropWhile Char.isWhitespace).reverse.dropWhile
      Char.isWhitespace).reverse)

/-- Summary sentences of `orchestrate`.  Numeric formatting is approximated
(`{temp:.0f}` modelled by rounding to the nearest integer); apostrophes in
the user-facing text are written out as words.  No claim depends on the
rendered text. -/
def render_temp_precip (t : ℚ) (p : Int) : String :=
  "It is currently " ++ toString (round t) ++ "°C with a " ++ toString p ++
    "% chance of precipitation."

def render_temp (t : ℚ) : String :=
  "Current temperature is " ++ toString (round t) ++ "°C."

def render_places (names : List String) : String :=
  "Places you can visit: " ++ String.intercalate ", " names ++ "."

/-- Summary/error composition of `orchestrate` after the fan-in: returns
`(summary_parts, errors)` in accumulation order.  `if weather_block:` is
truthy iff the task ran (the dict is never empty); `if places_block:` is
truthy iff the list is present and non-empty. -/
def compose_summary (want : List String) (weather_block : Option WeatherBlock)
    (places_block : Option (List String)) : List String × List String :=
  let wpair : List String × List String :=
    match weather_block with
    | some wb =>
      match wb.error with
      | some e => ([], [e])
      | none =>
        match wb.temperature, wb.precipitation_probability with
        | some t, some p => ([render_temp_precip t p], [])
        | some t, none => ([render_temp t], [])
        | none, _ => ([], [])
    | none =>
      if "weather" ∈ want then ([], ["Weather service unavailable"])
      else ([], [])
  let ppair : List String × List String :=
    match places_block with
    | some (nm :: rest) => ([render_places (nm :: rest)], [])
    | some [] =>
      if "places" ∈ want then ([], ["Places service unavailable"]) else ([], [])
    | none =>
      if "places" ∈ want then ([], ["Places service unavailable"]) else ([], [])
  (wpair.1 ++ ppair.1, wpair.2 ++ ppair.2)

/-- `orchestrate(place_candidate, want)`: input check, resolution
(`resolve` models `_resolve_place`, which catches every exception and
returns `None`), concurrent dispatch of the requested domains with
exception-capturing join (each task catches internally, so `.result()`
never re-raises), and composition.  `weatherOp` is the underlying weather
fetch oracle (wrapped in retry inside `run_weather`); `placesTask` is the
places task outcome. -/
def orchestrate (place_candidate : Option String)
    (resolve : String → Option GeocodeResult)
    (weatherOp : Nat → Except Unit WeatherBlock)
    (placesTask : Except Unit (List POI))
    (want : List String) : OrchestrationResult :=
  let no_destination : OrchestrationResult :=
    { place := none, lat := none, lon := none, geocode_source := none,
      weather := none, places := none, places_geo := none,
      text := "I could not identify a destination in your message. Please specify a city or place.",
      errors := some ["No destination specified"] }
  match place_candidate with
  | none => no_destination
  | some pc =>
    if py_strip pc = "" then no_destination
    else
      match resolve pc with
      | none =>
        { place := some pc, lat := none, lon := none, geocode_source := none,
          weather := none, places := none, places_geo := none,
          text := "I could not find " ++ pc ++ " on the map. Please check the spelling or try a different location.",
          errors := some ["Location " ++ pc ++ " not found"] }
      | some geocode =>
        let weather_block :=
          if "weather" ∈ want then run_weather weatherOp else none
        let places_geo :=
          if "places" ∈ want then some (run_places placesTask) else none
        let places_block := places_geo.map (List.map POI.name)
        let pe := compose_summary want weather_block places_block
        { place := some geocode.display_name,
          lat := some geocode.lat, lon := some geocode.lon,
          geocode_source := some geocode.source,
          weather := weather_block,
          places := places_block,
          places_geo := places_geo,
          text := if pe.1 = [] then "No data available."
            else String.intercalate " " pe.1,
          errors := if pe.2 = [] then none else some pe.2 }

/-- An always-failing underlying weather fetch makes the weather task
return the error block: the retry wrapper exhausts its 3 attempts and
re-raises, and `_run_weather` catches. -/
theorem run_weather_allFail (op : Nat → Except Unit WeatherBlock)
    (hop : ∀ n, op n = .error ()) :
    run_weather op = some weather_unavailable_block := by
  have h := asyncRetryGo_allFail op (fun _ => ()) (1/2) hop 2 0
  rw [run_weather, fetch_weather, asyncRetryRun]
  rw [show (3 : Nat) = 2 + 1 from rfl, h]

/-- C1: failure isolation in `orchestrate`.  With a successful resolution
and both domains requested, if the weather task's underlying fetch raises
on every attempt while the places task returns a non-empty list, then
`orchestrate` returns normally with the weather field equal to the
`Weather service temporarily unavailable` error block, the places field
equal to the (non-empty) list of names from the places task, and a
non-empty errors list; symmetrically, a places task failure is mapped to an
empty sequence; and either domain's field never depends on the other
domain's outcome. -/
theorem orchestrator_failure_isolation (pc : String)
    (resolve : String → Option GeocodeResult) (g : GeocodeResult)
    (weatherOp : Nat → Except Unit WeatherBlock)
    (ps : List POI) (want : List String)
    (hpc : py_strip pc ≠ "") (hres : resolve pc = some g)
    (hww : "weather" ∈ want) (hwp : "places" ∈ want)
    (hop : ∀ n, weatherOp n = .error ()) (hne : ps ≠ []) :
    (orchestrate (some pc) resolve weatherOp (.ok ps) want).weather =
      some weather_unavailable_block ∧
    (orchestrate (some pc) resolve weatherOp (.ok ps) want).places =
      some (ps.map POI.name) ∧
    ps.map POI.name ≠ [] ∧
    (orchestrate (some pc) resolve weatherOp (.ok ps) want).errors =
      some ["Weather service temporarily unavailable"] ∧
    (orchestrate (some pc) resolve weatherOp (.error ()) want).places =
      some [] ∧
    (∀ w1 w2 p1,
      (orchestrate (some pc) resolve w1 p1 want).places =
        (orchestrate (some pc) resolve w2 p1 want).places) ∧
    (∀ w1 p1 p2,
      (orchestrate (some pc) resolve w1 p1 want).weather =
        (orchestrate (some pc) resolve w1 p2 want).weather) := by
  have hwfail := run_weather_allFail weatherOp hop
  obtain ⟨q, qs, rfl⟩ : ∃ q qs, ps = q :: qs := by
    cases ps with
    | nil => cases hne rfl
    | cons q qs => exact ⟨q, qs, rfl⟩
  refine ⟨?_, ?_, by simp, ?_, ?_, ?_, ?_⟩
  · simp [orchestrate, hpc, hres, hww, hwfail]
  · simp [orchestrate, hpc, hres, hwp, run_places]
  · simp [orchestrate, hpc, hres, hww, hwp, hwfail, run_places,
      compose_summary, weather_unavailable_block]
  · simp [orchestrate, hpc, hres, hwp, run_places]
  · intro w1 w2 p1
    simp [orchestrate, hpc, hres]
  · intro w1 p1 p2
    simp [orchestrate, hpc, hres]

/-- A concrete resolver for the C1 witness. -/
def witnessResolve (s : String) : Option GeocodeResult :=
  if s = "Bangalore" then
    some ⟨"Bangalore, Karnataka, India", 12, 77, "nominatim"⟩
  else none

/-- Witness for C1 (the spec scenario): weather fetch raises on every
attempt, places fetch succeeds with one entry — `orchestrate` returns
`places = ["Lalbagh"]`, the weather error block, and a non-empty error
list. -/
theorem orchestrator_failure_isolation_witness :
    (orchestrate (some "Bangalore") witnessResolve (fun _ => .error ())
      (.ok [⟨"Lalbagh", none, none, none⟩]) ["weather", "places"]).places =
      some ["Lalbagh"] ∧
    (orchestrate (some "Bangalore") witnessResolve (fun _ => .error ())
      (.ok [⟨"Lalbagh", none, none, none⟩]) ["weather", "places"]).weather =
      some weather_unavailable_block ∧
    (orchestrate (some "Bangalore") witnessResolve (fun _ => .error ())
      (.ok [⟨"Lalbagh", none, none, none⟩]) ["weather", "places"]).errors =
      some ["Weather service temporarily unavailable"] := by
  have h := orchestrator_failure_isolation "Bangalore" witnessResolve
    ⟨"Bangalore, Karnataka, India", 12, 77, "nominatim"⟩ (fun _ => .error ())
    [⟨"Lalbagh", none, none, none⟩] ["weather", "places"]
    (by decide) rfl (by decide) (by decide) (fun n => rfl) (by decide)
  exact ⟨h.2.1, h.1, h.2.2.2.1⟩
